import Mathlib

/-!
Verification of the OpenGlass core: the chunked-transfer reassembler
(`onChunk` in the device view) and the serialized agent pipeline
(`Agent.clearPhotos`, `Agent.addPhoto`, `Agent.answer`), shallowly
embedded from the TypeScript source.
-/

namespace OpenGlass

/-! ## Chunk reassembler

Embeds the closure `onChunk(id, data)` from the device view.  The captured
mutable variables `previousChunk : number` (with `-1` meaning idle) and
`buffer : Uint8Array` form the state.  Bytes are modelled as `Nat`,
byte buffers as `List Nat`.  Emitting a photo (the call to
`rotateImage(buffer, ...)` followed by `setPhotos`) is modelled as
appending the buffer that is handed to that pipeline to an output list:
rotation and storage are external collaborators. -/

structure ReasmState where
  previousChunk : Int
  buffer : List Nat
deriving Repr, DecidableEq

def initReasm : ReasmState := ⟨-1, []⟩

/-- One call of `onChunk`.  `id = none` is the terminator notification.
Mirrors the source: when idle, only an `id = 0` chunk starts a transfer
(resetting the buffer, then falling through to the append at the end);
when mid-transfer, a terminator emits the buffer and goes idle, an
in-order chunk (`id = previousChunk + 1`) appends its payload, and any
other id resets `previousChunk` to `-1` and returns (the source resets
only `previousChunk`; the stale buffer is overwritten at the next start). -/
def onChunk (id : Option Nat) (data : List Nat) (s : ReasmState) :
    ReasmState × List (List Nat) :=
  if s.previousChunk = -1 then
    match id with
    | none => (s, [])
    | some i =>
      if i = 0 then (⟨0, [] ++ data⟩, [])
      else (s, [])
  else
    match id with
    | none => (⟨-1, s.buffer⟩, [s.buffer])
    | some i =>
      if (i : Int) = s.previousChunk + 1 then (⟨(i : Int), s.buffer ++ data⟩, [])
      else (⟨-1, s.buffer⟩, [])

/-- Feed a list of `(id, payload)` events through `onChunk` in order,
collecting every emitted image. -/
def runChunks : List (Option Nat × List Nat) → ReasmState → ReasmState × List (List Nat)
  | [], s => (s, [])
  | e :: rest, s =>
    let step := onChunk e.1 e.2 s
    let next := runChunks rest step.1
    (next.1, step.2 ++ next.2)

/-- The in-order event stream whose ids start at `k` and whose payloads
are `ps`, with no terminator. -/
def inOrderFrom : Nat → List (List Nat) → List (Option Nat × List Nat)
  | _, [] => []
  | k, p :: ps => (some k, p) :: inOrderFrom (k + 1) ps

/-- Events with ids `0, 1, ..., ps.length - 1` carrying payloads `ps`. -/
def mkInOrder (ps : List (List Nat)) : List (Option Nat × List Nat) :=
  inOrderFrom 0 ps

/-- A full well-formed transfer: ids `0 .. n-1` then the terminator. -/
def mkStream (ps : List (List Nat)) : List (Option Nat × List Nat) :=
  mkInOrder ps ++ [(none, [])]

theorem runChunks_append (xs ys : List (Option Nat × List Nat)) (s : ReasmState) :
    runChunks (xs ++ ys) s =
      ((runChunks ys (runChunks xs s).1).1,
       (runChunks xs s).2 ++ (runChunks ys (runChunks xs s).1).2) := by
  induction xs generalizing s with
  | nil => simp [runChunks]
  | cons x xs ih => simp [runChunks, ih]

/-- Mid-transfer, a run of in-order chunks appends all payloads and
emits nothing. -/
theorem runChunks_inOrderFrom (ps : List (List Nat)) (k : Nat) (b : List Nat) :
    runChunks (inOrderFrom (k + 1) ps) ⟨(k : Int), b⟩ =
      (⟨((k + ps.length : Nat) : Int), b ++ ps.flatten⟩, []) := by
  induction ps generalizing k b with
  | nil => simp [inOrderFrom, runChunks]
  | cons p ps ih =>
    have hk : ((k : Int)) ≠ -1 := by omega
    have hstep : onChunk (some (k + 1)) p ⟨(k : Int), b⟩ =
        (⟨((k + 1 : Nat) : Int), b ++ p⟩, []) := by
      have hord : (((k + 1 : Nat) : Int)) = (k : Int) + 1 := by push_cast; ring
      rw [onChunk, if_neg hk, hord]
      simp
    rw [inOrderFrom]
    simp only [runChunks, hstep]
    rw [ih (k + 1) (b ++ p)]
    have h1 : ((k + 1 + ps.length : Nat) : Int) = ((k + (p :: ps).length : Nat) : Int) := by
      simp only [List.length_cons]
      omega
    have h2 : (b ++ p) ++ ps.flatten = b ++ (p :: ps).flatten := by
      simp [List.flatten_cons, List.append_assoc]
    rw [h1, h2]
    simp

/-- A complete transfer run from any idle state emits exactly the
concatenation of the payloads and returns to idle. -/
theorem runChunks_mkStream_cons (p : List Nat) (ps : List (List Nat)) (b : List Nat) :
    runChunks (mkStream (p :: ps)) ⟨-1, b⟩ =
      (⟨-1, (p :: ps).flatten⟩, [(p :: ps).flatten]) := by
  have hfirst : onChunk (some 0) p ⟨-1, b⟩ = (⟨((0 : Nat) : Int), p⟩, []) := by
    simp [onChunk]
  have hterm : ∀ q : List Nat, ∀ m : Nat,
      onChunk none [] ⟨(m : Int), q⟩ = (⟨-1, q⟩, [q]) := by
    intro q m
    have hm : ((m : Int)) ≠ -1 := by omega
    simp [onChunk, hm]
  rw [mkStream, mkInOrder, inOrderFrom]
  rw [show (((some 0 : Option Nat), p) :: inOrderFrom (0 + 1) ps) ++ [(none, [])] =
    ((some 0, p) : Option Nat × List Nat) :: (inOrderFrom (0 + 1) ps ++ [(none, [])]) from rfl]
  simp only [runChunks, hfirst]
  rw [runChunks_append, runChunks_inOrderFrom ps 0 p]
  simp only [runChunks, hterm (p ++ ps.flatten) (0 + ps.length)]
  simp [List.flatten_cons]

/-- C1: delivering chunks with ids `0, 1, ..., n-1` and then a terminator,
starting from the idle state, emits exactly one image whose bytes are the
concatenation of the `n` payloads in delivery order, and leaves the
reassembler idle (`previousChunk = -1`). -/
theorem complete_transfer_emits_concat (ps : List (List Nat)) (h : ps ≠ []) :
    (runChunks (mkStream ps) initReasm).2 = [ps.flatten] ∧
    (runChunks (mkStream ps) initReasm).1.previousChunk = -1 := by
  cases ps with
  | nil => exact absurd rfl h
  | cons p ps =>
    rw [initReasm, runChunks_mkStream_cons p ps []]
    exact ⟨rfl, rfl⟩

theorem complete_transfer_emits_concat_witness :
    ([[1, 2], [3]] : List (List Nat)) ≠ [] ∧
    (runChunks (mkStream [[1, 2], [3]]) initReasm).2 = [[1, 2, 3]] ∧
    (runChunks (mkStream [[1, 2], [3]]) initReasm).1.previousChunk = -1 := by
  have h := complete_transfer_emits_concat [[1, 2], [3]] (by decide)
  exact ⟨by decide, by simpa using h.1, h.2⟩

/-- C2: a transfer whose ids skip (ids `0 .. m-1` in order, then a chunk
whose id is not the expected `m`, then a terminator) emits no image at all
and leaves the reassembler idle; a subsequent well-formed transfer
`0 .. n-1, terminator` then emits exactly its own concatenation. -/
theorem gap_discards_then_recovers (p : List Nat) (ps : List (List Nat))
    (j : Nat) (d : List Nat) (q : List Nat) (qs : List (List Nat))
    (hj : j ≠ ps.length + 1) :
    (runChunks (mkInOrder (p :: ps) ++ [(some j, d)] ++ [(none, [])] ++
        mkStream (q :: qs)) initReasm).2 = [(q :: qs).flatten] ∧
    (runChunks (mkInOrder (p :: ps) ++ [(some j, d)] ++ [(none, [])] ++
        mkStream (q :: qs)) initReasm).1.previousChunk = -1 := by
  have hlen : ((ps.length : Int)) ≠ -1 := by omega
  have hgap : ((j : Int)) ≠ (ps.length : Int) + 1 := by
    intro hc
    apply hj
    omega
  have hpre : runChunks (mkInOrder (p :: ps)) initReasm =
      (⟨((0 + ps.length : Nat) : Int), p ++ ps.flatten⟩, []) := by
    rw [mkInOrder, inOrderFrom, initReasm]
    have hfirst : onChunk (some 0) p ⟨-1, []⟩ = (⟨((0 : Nat) : Int), p⟩, []) := by
      simp [onChunk]
    simp only [runChunks, hfirst]
    rw [runChunks_inOrderFrom ps 0 p]
    simp
  have hgapstep : onChunk (some j) d ⟨((0 + ps.length : Nat) : Int), p ++ ps.flatten⟩ =
      (⟨-1, p ++ ps.flatten⟩, []) := by
    have hne : (((0 + ps.length : Nat) : Int)) ≠ -1 := by omega
    have hnid : ((j : Int)) ≠ ((0 + ps.length : Nat) : Int) + 1 := by
      push_cast
      push_cast at hgap
      omega
    rw [onChunk, if_neg hne]
    simp only [if_neg hnid]
  have hidleterm : onChunk none [] ⟨-1, p ++ ps.flatten⟩ = (⟨-1, p ++ ps.flatten⟩, []) := by
    simp [onChunk]
  have hB : runChunks [((some j : Option Nat), d)]
      ⟨((0 + ps.length : Nat) : Int), p ++ ps.flatten⟩ = (⟨-1, p ++ ps.flatten⟩, []) := by
    simp only [runChunks, hgapstep]
    simp
  have hC : runChunks [((none : Option Nat), ([] : List Nat))] ⟨-1, p ++ ps.flatten⟩ =
      (⟨-1, p ++ ps.flatten⟩, []) := by
    simp only [runChunks, hidleterm]
    simp
  rw [show mkInOrder (p :: ps) ++ [(some j, d)] ++ [(none, [])] ++ mkStream (q :: qs)
      = mkInOrder (p :: ps) ++ ([(some j, d)] ++ ([(none, [])] ++ mkStream (q :: qs)))
    from by simp [List.append_assoc]]
  rw [runChunks_append, hpre]
  rw [runChunks_append, hB]
  rw [runChunks_append, hC]
  rw [runChunks_mkStream_cons q qs (p ++ ps.flatten)]
  constructor <;> simp

theorem gap_discards_then_recovers_witness :
    (3 : Nat) ≠ ([[ (2 : Nat) ]] : List (List Nat)).length + 1 ∧
    (runChunks (mkInOrder [[1], [2]] ++ [(some 3, [9])] ++ [(none, [])] ++
        mkStream [[5]]) initReasm).2 = [[5]] ∧
    (runChunks (mkInOrder [[1], [2]] ++ [(some 3, [9])] ++ [(none, [])] ++
        mkStream [[5]]) initReasm).1.previousChunk = -1 := by
  have h := gap_discards_then_recovers [1] [[2]] 3 [9] [5] [] (by decide)
  exact ⟨by decide, by simpa using h.1, h.2⟩

/-! ## Agent pipeline

Embeds `Agent` from the agent module.  The private fields
`this.#photos : (photo, description) list`, `this.#state : AgentState`
and `this.#stateCopy` (the published immutable snapshot written by
`this.#notify`) form the state.  The listener list only forwards
notifications, so a publish is modelled as copying the state into
`stateCopy`; the external collaborators `startAudio`, `imageDescription`
and `llamaFind` are suspension points recorded as events. -/

structure AgentState where
  lastDescription : Option String
  answer : Option String
  loading : Bool
deriving Repr, DecidableEq

structure Agent where
  photos : List (List Nat × String)
  state : AgentState
  stateCopy : AgentState
deriving Repr, DecidableEq

def initAgent : Agent :=
  ⟨[], ⟨none, none, false⟩, ⟨none, none, false⟩⟩

/-- The `combined` loop inside `Agent.answer`: starting from the empty
string and index `0`, each photo appends its header and description via
`combined += ...`. -/
def combinedLoop : List (List Nat × String) → Nat → String → String
  | [], _, combined => combined
  | p :: rest, i, combined =>
    combinedLoop rest (i + 1)
      (combined ++ "\n\nImage #" ++ toString i ++ "\n\n" ++ p.2)

/-- The context blob `Agent.answer` hands to `llamaFind`. -/
def combinedContext (photos : List (List Nat × String)) : String :=
  combinedLoop photos 0 ""

/-- Modelled from the spec wording for comparison with `combinedContext`:
the concatenation, in accumulation order, of a per-image header
(containing the 0-based index) followed by that image description. -/
def specContextFrom : Nat → List (List Nat × String) → String
  | _, [] => ""
  | i, p :: rest =>
    "\n\nImage #" ++ toString i ++ "\n\n" ++ p.2 ++ specContextFrom (i + 1) rest

def specContext (photos : List (List Nat × String)) : String :=
  specContextFrom 0 photos

/-- The fixed fallback set by the catch branch inside the lock body of
`Agent.answer`. -/
def fallbackAnswer : String :=
  "Sorry, an error occurred while processing your request."

/-- Outcome oracle for the `llamaFind` suspension point: the call either
returns an answer text or throws. -/
inductive LlamaResult where
  | ok (answerText : String)
  | thrown
deriving Repr, DecidableEq

def llamaOutcome : LlamaResult → String
  | .ok t => t
  | .thrown => fallbackAnswer

/-- Observable events of one `Agent.answer` call, in program order. -/
inductive AEvent where
  | audioTry
  | guardDrop
  | setLoading (b : Bool)
  | publish (st : AgentState)
  | lockAcquire
  | llamaFind (question context : String)
  | setAnswer (text : String)
  | lockRelease
deriving Repr, DecidableEq

/-- One call of `Agent.answer`.  Mirrors the source order: `startAudio`
is attempted first inside its own try/catch; then the reentrancy guard
returns if `loading` is already true; otherwise `loading := true` and a
publish, then the lock body builds `combined`, calls `llamaFind`
(its failure caught by setting the fallback), and the `finally` clause
sets `loading := false` and publishes. -/
def answerRun (a : Agent) (question : String) (r : LlamaResult) :
    Agent × List AEvent :=
  if a.state.loading then
    (a, [AEvent.audioTry, AEvent.guardDrop])
  else
    let st1 : AgentState := { a.state with loading := true }
    let ctx : String := combinedContext a.photos
    let ans : String := llamaOutcome r
    let st2 : AgentState := { st1 with answer := some ans }
    let st3 : AgentState := { st2 with loading := false }
    ({ photos := a.photos, state := st3, stateCopy := st3 },
     [AEvent.audioTry, AEvent.setLoading true, AEvent.publish st1,
      AEvent.lockAcquire, AEvent.llamaFind question ctx, AEvent.setAnswer ans,
      AEvent.lockRelease, AEvent.setLoading false, AEvent.publish st3])

/-- `Agent.clearPhotos`: empties the photo list, clears
`lastDescription` and `answer`, then calls `this.#notify()` once.  The
second component counts the publishes performed by the call. -/
def clearPhotos (a : Agent) : Agent × Nat :=
  let st : AgentState := { a.state with lastDescription := none, answer := none }
  (⟨[], st, st⟩, 1)

/-! ## Capture controller

Embeds `takePhoto` from the device view: the captured state is whether
`photoControlCharRef.current` is set and the `isCapturing` flag.  The
second component lists the bytes written to the capture-control
characteristic during the call; the third is true when the capture
command was issued.  On the accept path the source also schedules
`isCapturing := false` 2000 ms later; that timer callback is outside
this synchronous step. -/

structure CaptureState where
  controlAvailable : Bool
  isCapturing : Bool
deriving Repr, DecidableEq

def takePhoto (s : CaptureState) : CaptureState × List Nat × Bool :=
  if s.controlAvailable && !s.isCapturing then
    ({ s with isCapturing := true }, [0x01], true)
  else
    (s, [], false)

theorem combinedLoop_eq_specContextFrom (ps : List (List Nat × String))
    (i : Nat) (acc : String) :
    combinedLoop ps i acc = acc ++ specContextFrom i ps := by
  induction ps generalizing i acc with
  | nil => simp [combinedLoop, specContextFrom]
  | cons p ps ih =>
    rw [combinedLoop, specContextFrom, ih]
    simp [String.append_assoc]

/-- The loop in `Agent.answer` builds exactly the context blob described
by the spec. -/
theorem combinedContext_eq_specContext (ps : List (List Nat × String)) :
    combinedContext ps = specContext ps := by
  rw [combinedContext, specContext, combinedLoop_eq_specContextFrom]
  simp

/-- C3: a call of `answer` that passes the reentrancy guard terminates
with `loading = false` and a final publish; its event trace sets
`loading := true` and publishes before acquiring the lock, and the only
other `loading` write is the `finally` one, immediately before the final
publish, whatever the `llamaFind` outcome. -/
theorem answer_always_clears_loading (a : Agent) (question : String)
    (r : LlamaResult) (h : a.state.loading = false) :
    (answerRun a question r).1.state.loading = false ∧
    ∃ st1 st3 ctx ans,
      (answerRun a question r).2 =
        [AEvent.audioTry, AEvent.setLoading true, AEvent.publish st1,
         AEvent.lockAcquire, AEvent.llamaFind question ctx,
         AEvent.setAnswer ans, AEvent.lockRelease, AEvent.setLoading false,
         AEvent.publish st3] ∧
      st1.loading = true ∧ st3.loading = false ∧
      (answerRun a question r).1.state = st3 := by
  refine ⟨by simp [answerRun, h], ?_⟩
  refine ⟨⟨a.state.lastDescription, a.state.answer, true⟩,
    ⟨a.state.lastDescription, some (llamaOutcome r), false⟩,
    combinedContext a.photos, llamaOutcome r, ?_, rfl, rfl, ?_⟩
  · simp [answerRun, h]
  · simp [answerRun, h]

theorem answer_always_clears_loading_witness :
    initAgent.state.loading = false ∧
    (answerRun initAgent "Q" LlamaResult.thrown).1.state.loading = false := by
  exact ⟨rfl, (answer_always_clears_loading initAgent "Q" LlamaResult.thrown rfl).1⟩

/-- C4: a call of `answer` made while `loading` is already true leaves
the agent unchanged, never calls `llamaFind` and never enqueues on the
lock. -/
theorem answer_guard_noop (a : Agent) (question : String) (r : LlamaResult)
    (h : a.state.loading = true) :
    (answerRun a question r).1 = a ∧
    (∀ q c, AEvent.llamaFind q c ∉ (answerRun a question r).2) ∧
    AEvent.lockAcquire ∉ (answerRun a question r).2 := by
  simp [answerRun, h]

theorem answer_guard_noop_witness :
    (Agent.mk [] ⟨none, none, true⟩ ⟨none, none, true⟩).state.loading = true ∧
    (answerRun (Agent.mk [] ⟨none, none, true⟩ ⟨none, none, true⟩) "Q"
      LlamaResult.thrown).1 = Agent.mk [] ⟨none, none, true⟩ ⟨none, none, true⟩ := by
  exact ⟨rfl, (answer_guard_noop (Agent.mk [] ⟨none, none, true⟩ ⟨none, none, true⟩)
    "Q" LlamaResult.thrown rfl).1⟩

/-- C5: the context handed to `llamaFind` is the concatenation, in
accumulation order, of the indexed per-image headers and descriptions,
as the spec words it. -/
theorem answer_passes_spec_context (a : Agent) (question : String)
    (r : LlamaResult) (h : a.state.loading = false) :
    AEvent.llamaFind question (specContext a.photos) ∈ (answerRun a question r).2 := by
  simp [answerRun, h, combinedContext_eq_specContext]

theorem answer_passes_spec_context_witness :
    (Agent.mk [([7], "a cat")] ⟨none, none, false⟩ ⟨none, none, false⟩).state.loading
      = false ∧
    AEvent.llamaFind "what animal?" "\n\nImage #0\n\na cat" ∈
      (answerRun (Agent.mk [([7], "a cat")] ⟨none, none, false⟩ ⟨none, none, false⟩)
        "what animal?" (LlamaResult.ok "A cat")).2 := by
  refine ⟨rfl, ?_⟩
  have h := answer_passes_spec_context
    (Agent.mk [([7], "a cat")] ⟨none, none, false⟩ ⟨none, none, false⟩)
    "what animal?" (LlamaResult.ok "A cat") rfl
  have e : specContext [(([7] : List Nat), "a cat")] = "\n\nImage #0\n\na cat" := by
    rfl
  rw [e] at h
  exact h

/-- C6 counterexample: with `loading` already true, the call is dropped
by the reentrancy guard, yet its trace begins with the audio attempt:
the source tries `startAudio()` before checking the guard, so a dropped
call still performs the audio trigger and the trigger precedes the
`loading := true` write. -/
theorem dropped_answer_still_tries_audio :
    (Agent.mk [] ⟨none, none, true⟩ ⟨none, none, true⟩).state.loading = true ∧
    (answerRun (Agent.mk [] ⟨none, none, true⟩ ⟨none, none, true⟩) "Q"
      LlamaResult.thrown).2 = [AEvent.audioTry, AEvent.guardDrop] := by
  exact ⟨rfl, by simp [answerRun]⟩

/-- C6 amended: every call of `answer`, dropped or not, attempts the
ambient audio side effect as its very first action, before the
reentrancy check and before `loading` is set. -/
theorem audio_attempt_is_first (a : Agent) (question : String) (r : LlamaResult) :
    ((answerRun a question r).2).head? = some AEvent.audioTry := by
  rcases Bool.eq_false_or_eq_true a.state.loading with h | h <;>
    simp [answerRun, h]

/-- C9: with no accumulated photos and the guard passed, `llamaFind` is
still invoked, with the empty string as context. -/
theorem answer_empty_photos_calls_llama (a : Agent) (question : String)
    (r : LlamaResult) (h : a.state.loading = false) (hp : a.photos = []) :
    AEvent.llamaFind question "" ∈ (answerRun a question r).2 := by
  simp [answerRun, h, hp, combinedContext, combinedLoop]

theorem answer_empty_photos_calls_llama_witness :
    initAgent.state.loading = false ∧ initAgent.photos = [] ∧
    AEvent.llamaFind "Q" "" ∈ (answerRun initAgent "Q" (LlamaResult.ok "A")).2 := by
  exact ⟨rfl, rfl,
    answer_empty_photos_calls_llama initAgent "Q" (LlamaResult.ok "A") rfl rfl⟩

/-- C10: `clearPhotos` empties the photo list, clears `lastDescription`
and `answer`, leaves `loading` unchanged, publishes exactly once, and a
second call leaves the resulting agent unchanged. -/
theorem clearPhotos_resets_and_idempotent (a : Agent) :
    (clearPhotos a).1.photos = [] ∧
    (clearPhotos a).1.state.lastDescription = none ∧
    (clearPhotos a).1.state.answer = none ∧
    (clearPhotos a).1.state.loading = a.state.loading ∧
    (clearPhotos a).2 = 1 ∧
    (clearPhotos (clearPhotos a).1).1 = (clearPhotos a).1 := by
  simp [clearPhotos]

/-- C8: a capture request during the cooldown window writes nothing to
the capture-control channel, is not accepted, and leaves the controller
state unchanged (nothing is deferred). -/
theorem capture_during_cooldown_rejected (s : CaptureState)
    (h : s.isCapturing = true) :
    (takePhoto s).2.1 = [] ∧ (takePhoto s).2.2 = false ∧ (takePhoto s).1 = s := by
  simp [takePhoto, h]

theorem capture_during_cooldown_rejected_witness :
    (CaptureState.mk true true).isCapturing = true ∧
    (takePhoto (CaptureState.mk true true)).2.1 = [] ∧
    (takePhoto (CaptureState.mk true true)).2.2 = false ∧
    (takePhoto (CaptureState.mk true true)).1 = CaptureState.mk true true := by
  exact ⟨rfl, capture_during_cooldown_rejected (CaptureState.mk true true) rfl⟩

/-! ## Lock discipline of the exposed agent operations

Tags every mutation of `this.#photos` and `this.#state` (and every
`this.#notify` snapshot publish) performed by the three exposed
operations with whether its site runs inside `this.#lock.inLock`.
`clearPhotos` is synchronous and takes no lock; `addPhoto` pushes each
photo and, when the final description is truthy, updates
`lastDescription` and publishes, all inside its lock body; `answer`
toggles `loading` and publishes outside the lock (before acquiring it
and in the `finally` clause) and writes `answer` inside the lock body,
and performs no mutation at all when the guard drops the call. -/

inductive MTarget where
  | photoList
  | descField
  | answerField
  | loadingFlag
  | publishSnapshot
deriving Repr, DecidableEq

structure Mutation where
  target : MTarget
  underLock : Bool
deriving Repr, DecidableEq

inductive AgentOp where
  | clearPhotosOp
  | addPhotoOp (n : Nat) (lastTruthy : Bool)
  | answerOp (loadingAtEntry : Bool)
deriving Repr, DecidableEq

def opMutations : AgentOp → List Mutation
  | .clearPhotosOp =>
    [⟨.photoList, false⟩, ⟨.descField, false⟩, ⟨.answerField, false⟩,
     ⟨.publishSnapshot, false⟩]
  | .addPhotoOp n lastTruthy =>
    List.replicate n ⟨.photoList, true⟩ ++
      (if lastTruthy then [⟨.descField, true⟩, ⟨.publishSnapshot, true⟩] else [])
  | .answerOp true => []
  | .answerOp false =>
    [⟨.loadingFlag, false⟩, ⟨.publishSnapshot, false⟩, ⟨.answerField, true⟩,
     ⟨.loadingFlag, false⟩, ⟨.publishSnapshot, false⟩]

/-- C7 counterexample: `clearPhotos` mutates the photo list with no lock
held, so it is false that every exposed operation mutates the photo list
only under the lock. -/
theorem clearPhotos_unlocked_photo_mutation :
    Mutation.mk MTarget.photoList false ∈ opMutations AgentOp.clearPhotosOp ∧
    ¬ (∀ op : AgentOp, ∀ m ∈ opMutations op,
        m.target = MTarget.photoList → m.underLock = true) := by
  constructor
  · simp [opMutations]
  · intro hall
    have h := hall AgentOp.clearPhotosOp ⟨MTarget.photoList, false⟩
      (by simp [opMutations]) rfl
    cases h

/-- C7 amended: every mutation performed outside the lock belongs either
to `clearPhotos` (which mutates the photo list and state record
synchronously with no lock) or to `answer`, where it is one of the
`loading` toggles or snapshot publishes owned by that invocation. -/
theorem mutation_lock_discipline (op : AgentOp) (m : Mutation)
    (hm : m ∈ opMutations op) (hu : m.underLock = false) :
    op = AgentOp.clearPhotosOp ∨
    (∃ b, op = AgentOp.answerOp b ∧
      (m.target = MTarget.loadingFlag ∨ m.target = MTarget.publishSnapshot)) := by
  cases op with
  | clearPhotosOp => exact Or.inl rfl
  | addPhotoOp n lastTruthy =>
    exfalso
    rw [opMutations] at hm
    rcases List.mem_append.1 hm with h | h
    · have := List.eq_of_mem_replicate h
      rw [this] at hu
      cases hu
    · rcases lastTruthy with _ | _
      · simp at h
      · simp at h
        rcases h with h | h <;> (rw [h] at hu; cases hu)
  | answerOp b =>
    rcases b with _ | _
    · refine Or.inr ⟨false, rfl, ?_⟩
      simp only [opMutations, List.mem_cons, List.not_mem_nil, or_false] at hm
      rcases hm with h | h | h | h | h
      · rw [h]
        simp
      · rw [h]
        simp
      · exfalso
        rw [h] at hu
        exact Bool.noConfusion hu
      · rw [h]
        simp
      · rw [h]
        simp
    · simp [opMutations] at hm

theorem mutation_lock_discipline_witness :
    Mutation.mk MTarget.loadingFlag false ∈ opMutations (AgentOp.answerOp false) ∧
    (AgentOp.answerOp false = AgentOp.clearPhotosOp ∨
     ∃ b, AgentOp.answerOp false = AgentOp.answerOp b ∧
       ((Mutation.mk MTarget.loadingFlag false).target = MTarget.loadingFlag ∨
        (Mutation.mk MTarget.loadingFlag false).target = MTarget.publishSnapshot)) := by
  have hm : Mutation.mk MTarget.loadingFlag false ∈
      opMutations (AgentOp.answerOp false) := by
    simp [opMutations]
  exact ⟨hm, mutation_lock_discipline (AgentOp.answerOp false)
    ⟨MTarget.loadingFlag, false⟩ hm rfl⟩
